import Mathlib

/-!
Verification of the `DocumentStore` class (src/src/index.ts) of komment-ai/document-store.

The class is embedded shallowly:

* JavaScript arrays are modelled as `List (Option β)`: a hole (an index that was
  never assigned, reading as `undefined`) is `none`, a present element is `some`.
  Assigning past the end extends the array with holes, as in JavaScript
  (`jsSetPad`).  The dense arrays of the model (`lookup` buckets, remote chunk
  payloads) are plain `List`s.
* The injected asynchronous `getRemote` function is modelled by passing each
  operation the value the pending fetch would produce: `none` models a rejected
  promise (a thrown error), `some v` a fetch that resolves with `v`.
* A thrown JavaScript exception is modelled by `JsErr`; operations that can
  throw return their post-state together with a `JsOutcome`.  `JsErr.typeError`
  stands for the implicit `TypeError` raised by reading or writing a property
  of `undefined`.
* Timestamps (`new Date()`) are modelled by an explicit `now : String`
  parameter; the `Date`s rendered into a stored summary are strings.
-/

namespace DocStore

/-- Decimal digit character, as JavaScript number-to-string rendering produces. -/
def decChar (n : Nat) : Char := Char.ofNat (48 + n % 10)

/-- Digit list of `n` (most significant first); empty for `n = 0`.  The first
argument is structural fuel: any `fuel ≥ n` (indeed `≥` the digit count) yields
the digits of `n`. -/
def decDigitsAux : Nat → Nat → List Char
  | 0, _ => []
  | fuel+1, n =>
    if n = 0 then []
    else decDigitsAux fuel (n / 10) ++ [decChar (n % 10)]

/-- Decimal rendering of a natural number, as the template literal of a
number (the source's backtick-`${k}` form) produces: `17 ↦ "17"`, `0 ↦ "0"`. -/
def natDecimal (n : Nat) : String :=
  if n = 0 then "0" else String.mk (decDigitsAux n n)

/-- JavaScript `String.prototype.padStart` with a one-character pad string. -/
def padStart (s : String) (n : Nat) (c : Char) : String :=
  String.mk (List.replicate (n - s.length) c) ++ s

/-- Reading index `i` of a JavaScript array: out of range or a hole is `undefined`. -/
def jsGetSlot (l : List (Option β)) (i : Nat) : Option β :=
  (l[i]?).join

/-- Writing index `i` of a JavaScript array: in range overwrites, past the end
extends the array with holes so that the new element sits at index `i`. -/
def jsSetPad (l : List (Option β)) (i : Nat) (v : β) : List (Option β) :=
  if i < l.length then l.set i (some v)
  else l ++ List.replicate (i - l.length) none ++ [some v]

/-- JavaScript `Array.prototype.findIndex`, with `none` standing for `-1`. -/
def jsFindIndex (p : β → Bool) : List β → Option Nat
  | [] => none
  | b :: t => if p b then some 0 else (jsFindIndex p t).map (· + 1)

/-- JavaScript `Array.prototype.indexOf`, with `none` standing for `-1`. -/
def jsIndexOf [BEq β] (x : β) (l : List β) : Option Nat :=
  jsFindIndex (fun b => b == x) l

/-- `StructuredFile` (types/StructuredFile.d.ts): identity is by `path`; the
opaque `content` payload has an arbitrary (decidable) type `α`. -/
structure StructuredFile (α : Type) where
  name : String
  path : String
  content : α
deriving DecidableEq

/-- The `meta` envelope: the three built-in fields plus caller-defined fields.
The caller-defined fields are modelled as an association list with string
values; the embedding assumes the template keys are distinct from the three
built-in names (a template that redefined `version`/`created_at`/`updated_at`
would shadow them in the source's object spread, which no claim exercises). -/
structure MetaRec where
  version : String
  created_at : String
  updated_at : String
  extra : List (String × String)
deriving DecidableEq

/-- The state of a `DocumentStore` instance.  `nspace` is the source's
`namespace` field (a reserved word in Lean).  The injected `getRemote`
function is not part of the state; each operation that fetches takes the
fetch's outcome as an explicit argument. -/
structure DocumentStore (α : Type) where
  CHUNK_SIZE : Nat
  nspace : String
  meta : MetaRec
  metaTemplate : List (String × String)
  lookup : List (List String)
  chunks : List (Option (List (Option (StructuredFile α))))
  content : List (Option (StructuredFile α))
  statusSummary : Bool
  statusChunks : Bool
deriving DecidableEq

/-- A thrown JavaScript exception: either an explicit `throw Error(msg)` or the
implicit `TypeError` from touching a property of `undefined`. -/
inductive JsErr where
  | explicitMsg (msg : String)
  | typeError
deriving DecidableEq

/-- Result of an operation that can throw: a normal value or a thrown error.
For an async method, `threw` is a rejected promise. -/
inductive JsOutcome (β : Type) where
  | ok (val : β)
  | threw (e : JsErr)
deriving DecidableEq

/-- A remote summary document as raw JSON: every field may be absent.  A field
that is absent reads as `undefined` through the source's optional chains. -/
structure MetaDoc where
  version : Option String
  created_at : Option String
  updated_at : Option String
  extra : List (String × String)
deriving DecidableEq

/-- A fetched summary document (`meta` or `lookup` may be missing). -/
structure SummaryDoc where
  meta : Option MetaDoc
  lookup : Option (List (List String))
deriving DecidableEq

/-- Behaviour of the remote on the summary fetch: the promise rejects, resolves
with an empty object (no keys), or resolves with a summary document. -/
inductive SummaryFetch where
  | throws
  | emptyObj
  | doc (d : SummaryDoc)
deriving DecidableEq

/-- The constructor.  The source throws when `namespace` or `getRemote` is
missing; this embedding is used with a fixed nonempty namespace and models the
remote as explicit per-operation arguments, so neither guard can fire here. -/
def mkStore (α : Type) (nspace : String) (additionalMeta : List (String × String))
    (now : String) : DocumentStore α :=
  { CHUNK_SIZE := 40
    nspace := nspace
    meta := { version := "1", created_at := now, updated_at := now, extra := additionalMeta }
    metaTemplate := additionalMeta
    lookup := []
    chunks := []
    content := []
    statusSummary := false
    statusChunks := false }

def chunkIndexToChunkKey (k : Nat) : String :=
  padStart (natDecimal k) 5 '0'

def chunkKeyToChunkPath (nspace k : String) : String :=
  "." ++ nspace ++ "/" ++ k ++ ".json"

def getChunkSummaryPath (nspace : String) : String :=
  "." ++ nspace ++ "/" ++ nspace ++ ".json"

/-- Identity "hash" of a path (obfuscation placeholder in the source). -/
def getFileHash (path : String) : String := path

def getChunkFileIsIn (s : DocumentStore α) (path : String) : Option Nat :=
  jsFindIndex (fun sub => sub.contains (getFileHash path)) s.lookup

/-- `this.lookup[chunk].indexOf(...)`; every caller has established that
`chunk` indexes into `lookup`, so the `getD` default is never consulted. -/
def getFileIndexInChunk (s : DocumentStore α) (chunk : Nat) (path : String) : Option Nat :=
  jsIndexOf (getFileHash path) (s.lookup.getD chunk [])

def fileExists (s : DocumentStore α) (path : String) : Bool :=
  (jsFindIndex (fun sub => sub.contains (getFileHash path)) s.lookup).isSome

/-- `this.chunks[chunkIndex]?.length > 0`: an absent slot reads as
`undefined`, whose optional-chained `length` compares false. -/
def isChunkLoaded (s : DocumentStore α) (chunkIndex : Nat) : Bool :=
  match jsGetSlot s.chunks chunkIndex with
  | none => false
  | some c => decide (0 < c.length)

/-- `loadChunk`: memoized by `isChunkLoaded`; on a successful fetch appends the
records to `content` and writes the chunk slot; a rejected fetch is caught and
reported as `false` with the state untouched. -/
def loadChunk (s : DocumentStore α) (chunkIndex : Nat)
    (remote : Option (List (StructuredFile α))) : DocumentStore α × Bool :=
  if isChunkLoaded s chunkIndex then (s, true)
  else
    match remote with
    | none => (s, false)
    | some chunk =>
      ({ s with
          content := s.content ++ chunk.map some
          chunks := jsSetPad s.chunks chunkIndex (chunk.map some) }, true)

/-- `loadSummary`: fetch the summary document; a rejected fetch or an empty
object falls back to a freshly constructed default summary (current
timestamps, template-only meta, empty lookup).  Then the meta fields and the
lookup table are installed from whichever summary was selected, and the
summary flag is set.  The source cannot throw on this path. -/
def loadSummary (s : DocumentStore α) (now : String) (r : SummaryFetch) : DocumentStore α :=
  let install (m : Option MetaDoc) (lk : Option (List (List String))) : DocumentStore α :=
    { s with
        meta :=
          { version := match m.bind (·.version) with
              | some v => if v = "" then "1" else v
              | none => "1"
            created_at := match m.bind (·.created_at) with
              | some v => if v = "" then now else v
              | none => now
            updated_at := match m.bind (·.updated_at) with
              | some v => if v = "" then now else v
              | none => now
            extra := s.metaTemplate.foldl
              (fun acc kv =>
                let newV := ((m.bind (fun md => (md.extra.lookup kv.1))).getD kv.2)
                acc.map (fun kv2 => if kv2.1 = kv.1 then (kv2.1, newV) else kv2))
              s.meta.extra }
        lookup := lk.getD []
        statusSummary := true }
  match r with
  | .throws =>
    install (some { version := some "1", created_at := some now, updated_at := some now,
                    extra := s.metaTemplate }) (some [])
  | .emptyObj =>
    install (some { version := some "1", created_at := some now, updated_at := some now,
                    extra := s.metaTemplate }) (some [])
  | .doc d => install d.meta d.lookup

/-- `load`: load the summary if needed, then every chunk index implied by the
lookup table, in ascending order, then set the chunks flag (even if individual
chunk loads failed).  `rC i` is the outcome the remote produces for chunk `i`. -/
def load (s : DocumentStore α) (now : String) (rS : SummaryFetch)
    (rC : Nat → Option (List (StructuredFile α))) : DocumentStore α :=
  let s1 := if s.statusSummary then s else loadSummary s now rS
  let s2 := (List.range s1.lookup.length).foldl (fun t i => (loadChunk t i (rC i)).1) s1
  { s2 with statusChunks := true }

/-- `getFile`: throws the explicit precondition error when the summary is not
loaded; returns `null` when no bucket contains the path; otherwise lazily
loads the containing chunk and returns the record at the bucket position.  The
source dereferences `this.chunks[chunkIndex][fileIndexInChunk].path` without
checking that the chunk slot is populated, so a failed lazy load (or a chunk
shorter than its bucket) raises a `TypeError`.  When the record's own path
mismatches, the source only logs and still returns the record. -/
def getFile (s : DocumentStore α) (path : String)
    (remote : Option (List (StructuredFile α))) :
    DocumentStore α × JsOutcome (Option (StructuredFile α)) :=
  if s.statusSummary = false then
    (s, .threw (.explicitMsg "Must call .loadSummary before accessing files"))
  else
    match getChunkFileIsIn s path with
    | none => (s, .ok none)
    | some chunkIndex =>
      let s1 := if isChunkLoaded s chunkIndex then s else (loadChunk s chunkIndex remote).1
      match jsGetSlot s1.chunks chunkIndex with
      | none => (s1, .threw .typeError)
      | some body =>
        match getFileIndexInChunk s1 chunkIndex path with
        | none => (s1, .threw .typeError)
        | some fileIndexInChunk =>
          match jsGetSlot body fileIndexInChunk with
          | none => (s1, .threw .typeError)
          | some f => (s1, .ok (some f))

/-- The tail-append shape shared by `addToEndOfLookup` and `addToEndOfChunks`:
push a fresh singleton group when there is no last group or the last group is
full, else append to the last group (in-place mutation of the last group is
modelled as `dropLast ++ [updated]`). -/
def pushBucket (k : Nat) (l : List (List β)) (x : β) : List (List β) :=
  match l.getLast? with
  | none => l ++ [[x]]
  | some last =>
    if last.length = k then l ++ [[x]]
    else l.dropLast ++ [last ++ [x]]

/-- `addToEndOfLookup`: push a fresh bucket when there is none or the last one
is full, else append to the last bucket. -/
def addToEndOfLookup (s : DocumentStore α) (path : String) : DocumentStore α :=
  { s with lookup := pushBucket s.CHUNK_SIZE s.lookup path }

/-- `addToEndOfChunks`: same shape over the chunk array.  If the last chunk
slot were a hole, the source would read `length` of `undefined` and throw;
that slot shape is unreachable (every mutation leaves the last slot
populated), and the embedding reports it as a `TypeError`. -/
def addToEndOfChunks (s : DocumentStore α) (file : StructuredFile α) :
    DocumentStore α × Option JsErr :=
  match s.chunks.getLast? with
  | none => ({ s with chunks := s.chunks ++ [some [some file]] }, none)
  | some none => (s, some .typeError)
  | some (some lastChunk) =>
    if lastChunk.length = s.CHUNK_SIZE then
      ({ s with chunks := s.chunks ++ [some [some file]] }, none)
    else
      ({ s with chunks := s.chunks.dropLast ++ [some (lastChunk ++ [some file])] }, none)

/-- The insertion path shared by `addFile` (directly) and `updateFile` (via
its delegation to `addFile`): append to lookup, then to chunks, then push the
record onto `content`.  The lookup append precedes the chunk append, so a
(unreachable) chunk-side `TypeError` would leave the lookup already grown. -/
def insertNewFile (s : DocumentStore α) (file : StructuredFile α) :
    DocumentStore α × Option JsErr :=
  let s1 := addToEndOfLookup s file.path
  match addToEndOfChunks s1 file with
  | (s2, some e) => (s2, some e)
  | (s2, none) => ({ s2 with content := s2.content ++ [some file] }, none)

/-- The tail of `updateFile` that runs once its existence check has passed:
locate the containing chunk, lazily load it if needed, then overwrite the
record in the chunk slot and at `chunkIndex * CHUNK_SIZE + fileIndexInChunk`
in `content` (a write past the end pads with holes, as in JavaScript).
Writing into an absent chunk slot (after a failed lazy load) throws a
`TypeError`.  The `indexOf` cannot miss, because the bucket that matched in
`getChunkFileIsIn` contains the path; the embedding returns the state
unchanged on that dead branch. -/
def updateExistingCore (s : DocumentStore α) (file : StructuredFile α)
    (remote : Option (List (StructuredFile α))) : DocumentStore α × JsOutcome Bool :=
  match getChunkFileIsIn s file.path with
  | none => (s, .ok false)
  | some chunkIndex =>
    let s1 := if isChunkLoaded s chunkIndex then s else (loadChunk s chunkIndex remote).1
    match jsGetSlot s1.chunks chunkIndex with
    | none => (s1, .threw .typeError)
    | some body =>
      match getFileIndexInChunk s1 chunkIndex file.path with
      | none => (s1, .ok true)
      | some fi =>
        let s2 := { s1 with
          chunks := jsSetPad s1.chunks chunkIndex (jsSetPad body fi file) }
        let s3 := { s2 with
          content := jsSetPad s2.content (chunkIndex * s.CHUNK_SIZE + fi) file }
        (s3, .ok true)

/-- `addFile`: precondition error before `load`; rejects an empty path; for an
existing path delegates to `updateFile` — called without `await`, so its
effects apply but a rejection cannot be caught and `addFile` returns `true`
regardless; for a new path runs the insertion path. -/
def addFile (s : DocumentStore α) (file : StructuredFile α)
    (remote : Option (List (StructuredFile α))) : DocumentStore α × JsOutcome Bool :=
  if s.statusChunks = false then
    (s, .threw (.explicitMsg "Must call .load before adding files"))
  else if file.path = "" then (s, .ok false)
  else if fileExists s file.path then
    -- the delegate re-checks status.chunks and fileExists on the same state,
    -- both hold, so its state effects are exactly `updateExistingCore`
    ((updateExistingCore s file remote).1, .ok true)
  else
    match insertNewFile s file with
    | (s2, some e) => (s2, .threw e)
    | (s2, none) => (s2, .ok true)

/-- `updateFile`: precondition error before `load`; for a nonexistent path
delegates to `addFile` inside try/catch (`addFile` is synchronous, cannot
throw here since `status.chunks` holds; its boolean — `false` for an empty
path — is discarded and `updateFile` returns `true`); for an existing path
runs the located-update tail. -/
def updateFile (s : DocumentStore α) (file : StructuredFile α)
    (remote : Option (List (StructuredFile α))) : DocumentStore α × JsOutcome Bool :=
  if s.statusChunks = false then
    (s, .threw (.explicitMsg "Must call .load before updating files"))
  else if fileExists s file.path = false then
    if file.path = "" then (s, .ok true)
    else
      match insertNewFile s file with
      | (s2, some _) => (s2, .ok false)
      | (s2, none) => (s2, .ok true)
  else
    updateExistingCore s file remote

/-- `outputSummary`: the `{meta, lookup}` projection. -/
def outputSummary (s : DocumentStore α) : MetaRec × List (List String) :=
  (s.meta, s.lookup)

/-- The loop body of `outputChunks`: slice `CHUNK_SIZE` records at a time off
`content`, keying each slice by its chunk path.  The first argument is
structural fuel; `content.length` steps always suffice because the source's
loop advances `i` by `CHUNK_SIZE ≥ 1` per iteration (with `CHUNK_SIZE = 0`
the source's loop would not terminate; the real field is always `40`). -/
def outputChunksAux (nspace : String) (k : Nat) :
    Nat → List (Option (StructuredFile α)) → Nat → List (String × List (Option (StructuredFile α)))
  | 0, _, _ => []
  | _, [], _ => []
  | fuel+1, l, j =>
    (chunkKeyToChunkPath nspace (chunkIndexToChunkKey j), l.take k) ::
      outputChunksAux nspace k fuel (l.drop k) (j + 1)

/-- `outputChunks`: the record of chunk path ↦ slice, in ascending chunk-index
order (the record's insertion order). -/
def outputChunks (s : DocumentStore α) : List (String × List (Option (StructuredFile α))) :=
  outputChunksAux s.nspace s.CHUNK_SIZE s.content.length s.content 0

/-- Folding a sequence of `addFile` calls (no remote fetch is consulted: every
chunk such a sequence touches is already loaded). -/
def addFiles (s : DocumentStore α) (fs : List (StructuredFile α)) : DocumentStore α :=
  fs.foldl (fun t f => (addFile t f none).1) s

/-- `loadChunk` performs its remote fetch exactly when the occupancy check
fails: this predicate reads that branch condition off the source. -/
def loadChunkFetches (s : DocumentStore α) (i : Nat) : Bool :=
  !(isChunkLoaded s i)

/-- Number of remote fetches performed by two sequential `loadChunk i` calls
whose first fetch (if any) resolves with `r1`.  Whether the second call
fetches depends only on the state the first call leaves behind. -/
def loadChunkFetchCount2 (s : DocumentStore α) (i : Nat)
    (r1 : Option (List (StructuredFile α))) : Nat :=
  (if loadChunkFetches s i then 1 else 0) +
    (if loadChunkFetches (loadChunk s i r1).1 i then 1 else 0)

/-- The chunk bodies of a store whose chunk slots are all populated. -/
def bodies (s : DocumentStore α) : List (List (Option (StructuredFile α))) :=
  s.chunks.map (fun sl => sl.getD [])

/-- Well-formedness of the loaded portion of a store: a positive chunk size,
no holes at the slot level, every chunk except the last full, every chunk
within capacity, the flattened content list equal to the concatenation of the
chunk bodies, and each loaded chunk in lockstep with its lookup bucket. -/
def wfB [DecidableEq α] (s : DocumentStore α) : Bool :=
  decide (0 < s.CHUNK_SIZE) &&
  s.chunks.all Option.isSome &&
  (List.range s.chunks.length).all (fun j =>
    decide (j + 1 < s.chunks.length → ((bodies s).getD j []).length = s.CHUNK_SIZE)) &&
  (List.range s.chunks.length).all (fun j =>
    decide (((bodies s).getD j []).length ≤ s.CHUNK_SIZE)) &&
  (s.content == (bodies s).flatten) &&
  (List.range s.chunks.length).all
    (fun j => (s.lookup.getD j []).length == ((bodies s).getD j []).length)

/-- The lookup table and the chunk array have the same number of groups. -/
def lenEqB (s : DocumentStore α) : Bool :=
  s.lookup.length == s.chunks.length

/-- The central alignment property of the claim: for every populated chunk
slot `i` and every offset `o` inside it, the flattened content list holds the
same record at `i * CHUNK_SIZE + o` as the chunk body does at `o` (both reads
are JavaScript reads: out of range and holes read as `undefined`; an
unpopulated slot contributes no offsets, since its default body is empty). -/
def alignedB [DecidableEq α] (s : DocumentStore α) : Bool :=
  (List.range s.chunks.length).all fun i =>
    (List.range ((bodies s).getD i []).length).all fun o =>
      jsGetSlot s.content (i * s.CHUNK_SIZE + o) == jsGetSlot ((bodies s).getD i []) o

/-- Proposition form of `wfB`, convenient for the inductive proofs. -/
structure WF (s : DocumentStore α) : Prop where
  kpos : 0 < s.CHUNK_SIZE
  dense : ∀ sl ∈ s.chunks, sl.isSome = true
  full : ∀ j, j + 1 < s.chunks.length → ((bodies s).getD j []).length = s.CHUNK_SIZE
  cap : ∀ j, j < s.chunks.length → ((bodies s).getD j []).length ≤ s.CHUNK_SIZE
  flat : s.content = (bodies s).flatten
  lock : ∀ j, j < s.chunks.length → (s.lookup.getD j []).length = ((bodies s).getD j []).length

/-- The conclusion of the lockstep-growth claim: every populated chunk slot
agrees in length with its lookup bucket, and no bucket exceeds capacity. -/
def lockstepOkB (s : DocumentStore α) : Bool :=
  ((List.range s.chunks.length).all fun i =>
    match jsGetSlot s.chunks i with
    | none => true
    | some body => (s.lookup.getD i []).length == body.length) &&
  s.lookup.all (fun b => decide (b.length ≤ s.CHUNK_SIZE))

/-- A fixed metadata record for the concrete stores below. -/
def metaT0 : MetaRec :=
  { version := "1", created_at := "t0", updated_at := "t0", extra := [] }

/-- Summary loaded (lookup knows `a.js` in bucket 0) but chunk 0 was never
fetched: the state in which a failing lazy chunk load makes `getFile` throw. -/
def c2Store : DocumentStore Nat :=
  { CHUNK_SIZE := 40, nspace := "acme", meta := metaT0, metaTemplate := []
    lookup := [["a.js"]], chunks := [], content := []
    statusSummary := true, statusChunks := false }

/-- A store reached by `loadSummary` (summary with two buckets) followed by a
lazy `loadChunk 1` — chunk 1 fetched before chunk 0. -/
def c1OutOfOrderStore : DocumentStore Nat :=
  (loadChunk
    (loadSummary (mkStore Nat "acme" [] "t0") "t0"
      (.doc { meta := some { version := some "1", created_at := some "t0",
                             updated_at := some "t0", extra := [] }
              lookup := some [["a"], ["b"]] }))
    1 (some [{ name := "b", path := "b", content := 0 }])).1

/-- A fully loaded store whose lookup contains the empty-string path (as a
remote summary may supply): the state separating `addFile` from `updateFile`
on an empty-path file. -/
def c7Store : DocumentStore Nat :=
  { CHUNK_SIZE := 40, nspace := "acme", meta := metaT0, metaTemplate := []
    lookup := [[""]]
    chunks := [some [some { name := "g", path := "", content := 0 }]]
    content := [some { name := "g", path := "", content := 0 }]
    statusSummary := true, statusChunks := true }

/-- A small fully loaded store (chunk size 2 as in the repository's tests)
with three records, used to witness the universally quantified theorems. -/
def demoStore : DocumentStore Nat :=
  { CHUNK_SIZE := 2, nspace := "duck", meta := metaT0, metaTemplate := []
    lookup := [["a.js", "b.js"], ["c.js"]]
    chunks := [some [some { name := "a", path := "a.js", content := 1 },
                     some { name := "b", path := "b.js", content := 2 }],
               some [some { name := "c", path := "c.js", content := 3 }]]
    content := [some { name := "a", path := "a.js", content := 1 },
                some { name := "b", path := "b.js", content := 2 },
                some { name := "c", path := "c.js", content := 3 }]
    statusSummary := true, statusChunks := true }

theorem jsGetSlot_jsSetPad_self (l : List (Option β)) (i : Nat) (v : β) :
    jsGetSlot (jsSetPad l i v) i = some v := by
  unfold jsSetPad jsGetSlot
  by_cases h : i < l.length
  · rw [if_pos h, List.getElem?_set_eq_of_lt _ h]
    rfl
  · have hle : l.length ≤ i := Nat.le_of_not_lt h
    have hA : (l ++ List.replicate (i - l.length) (none : Option β)).length = i := by
      simp [Nat.add_sub_cancel' hle]
    rw [if_neg h, List.getElem?_append_right (le_of_eq hA), hA]
    simp

theorem addToEndOfChunks_ok (s : DocumentStore α) (f : StructuredFile α)
    (hlast : s.chunks.getLast? ≠ some none) :
    (addToEndOfChunks s f).2 = none := by
  unfold addToEndOfChunks
  cases hl : s.chunks.getLast? with
  | none => rfl
  | some slot =>
    cases slot with
    | none => exact absurd hl hlast
    | some lastChunk => by_cases hfull : lastChunk.length = s.CHUNK_SIZE <;> simp [hfull]

theorem insertNewFile_outcome (s : DocumentStore α) (f : StructuredFile α)
    (hlast : s.chunks.getLast? ≠ some none) :
    (insertNewFile s f).2 = none := by
  unfold insertNewFile
  cases hres : addToEndOfChunks (addToEndOfLookup s f.path) f with
  | mk s2 e =>
    have he : e = none := by
      have h2 := addToEndOfChunks_ok (addToEndOfLookup s f.path) f hlast
      rw [hres] at h2
      exact h2
    subst he
    simp [hres]

theorem decDigitsAux_length_le (fuel n d : Nat) (h : n < 10 ^ d) :
    (decDigitsAux fuel n).length ≤ d := by
  induction fuel generalizing n d with
  | zero => simp [decDigitsAux]
  | succ fuel ih =>
    by_cases hn : n = 0
    · simp [decDigitsAux, hn]
    · obtain ⟨d', rfl⟩ : ∃ d', d = d' + 1 := by
        refine ⟨d - 1, ?_⟩
        have : d ≠ 0 := by rintro rfl; simp at h; omega
        omega
      have hdiv : n / 10 < 10 ^ d' := by
        rw [Nat.div_lt_iff_lt_mul (by norm_num)]
        calc n < 10 ^ (d' + 1) := h
          _ = 10 ^ d' * 10 := by ring
      have := ih (n / 10) d' hdiv
      simp only [decDigitsAux, hn, if_false, List.length_append, List.length_cons,
        List.length_nil]
      omega

theorem natDecimal_length_le (n d : Nat) (hd : 0 < d) (h : n < 10 ^ d) :
    (natDecimal n).length ≤ d := by
  unfold natDecimal
  by_cases hn : n = 0
  · have : (1:Nat) ≤ d := hd
    simpa [hn] using this
  · simp only [hn, if_false]
    have hmk : (String.mk (decDigitsAux n n)).length = (decDigitsAux n n).length := by
      simp [String.length]
    rw [hmk]
    exact decDigitsAux_length_le n n d h

theorem string_length_mk (l : List Char) : (String.mk l).length = l.length := by
  simp [String.length]

theorem padStart_length (s : String) (n : Nat) (c : Char) :
    (padStart s n c).length = (n - s.length) + s.length := by
  rw [padStart, String.length_append, string_length_mk, List.length_replicate]

/-- C9: the summary document path is `.{ns}/{ns}.json`, and the chunk document
path for index `k` is `.{ns}/{key}.json` where the key is the decimal
rendering of `k` left-padded with zeros to width 5 — a genuine 5-digit key for
every index below 100000. -/
theorem chunk_path_scheme (ns : String) (k : Nat) :
    getChunkSummaryPath ns = "." ++ ns ++ "/" ++ ns ++ ".json" ∧
    chunkKeyToChunkPath ns (chunkIndexToChunkKey k) =
      "." ++ ns ++ "/" ++ padStart (natDecimal k) 5 '0' ++ ".json" ∧
    (k < 100000 → (chunkIndexToChunkKey k).length = 5) := by
  refine ⟨rfl, rfl, fun hk => ?_⟩
  have h5 : (10:Nat) ^ 5 = 100000 := by norm_num
  have h1 : (natDecimal k).length ≤ 5 :=
    natDecimal_length_le k 5 (by norm_num) (by omega)
  rw [chunkIndexToChunkKey, padStart_length]
  omega

theorem chunk_path_scheme_witness :
    (chunkIndexToChunkKey 17).length = 5 ∧ chunkIndexToChunkKey 17 = "00017" ∧
    chunkKeyToChunkPath "acme" (chunkIndexToChunkKey 17) = ".acme/00017.json" :=
  ⟨(chunk_path_scheme "acme" 17).2.2 (by norm_num), by decide, by decide⟩

/-- C4: when the slot for chunk `i` is unpopulated and the remote fetch
rejects, `loadChunk i` returns `false` and the whole store state — in
particular the chunk slot and the flattened content list — is exactly as it
was before the call. -/
theorem loadChunk_failure_atomic (s : DocumentStore α) (i : Nat)
    (h : isChunkLoaded s i = false) :
    loadChunk s i none = (s, false) := by
  simp [loadChunk, h]

theorem loadChunk_failure_atomic_witness :
    isChunkLoaded c2Store 0 = false ∧ loadChunk c2Store 0 none = (c2Store, false) :=
  ⟨by decide, loadChunk_failure_atomic c2Store 0 (by decide)⟩

/-- C2 (code bug): in a store with the summary loaded and `a.js` recorded in
bucket 0 but chunk 0 not yet fetched, `getFile "a.js"` with a rejecting remote
does not surface the failed lazy chunk load as a returned value: it throws a
`TypeError` (the source indexes into the still-undefined chunk slot, ignoring
`loadChunk`'s `false`). -/
theorem getFile_failed_chunk_load_throws :
    getFile c2Store "a.js" none = (c2Store, .threw .typeError) ∧
    c2Store.statusSummary = true ∧ fileExists c2Store "a.js" = true :=
  ⟨by decide, by decide, by decide⟩

/-- C10: with chunks loaded and `f.path` absent from the lookup table (and the
last chunk slot populated, as in every reachable state), `updateFile f`
returns `true` no matter what the delegated `addFile` did; for an empty-string
path the store is left entirely unchanged while `addFile` itself had returned
`false` — a result `updateFile` discards. -/
theorem updateFile_nonexistent_true (s : DocumentStore α) (f : StructuredFile α)
    (r : Option (List (StructuredFile α)))
    (h : s.statusChunks = true) (he : fileExists s f.path = false)
    (hlast : s.chunks.getLast? ≠ some none) :
    (updateFile s f r).2 = .ok true ∧
    (f.path = "" → (updateFile s f r).1 = s ∧ addFile s f r = (s, .ok false)) := by
  constructor
  · by_cases hp : f.path = ""
    · rw [hp] at he
      simp [updateFile, h, he, hp]
    · simp only [updateFile, h, he, hp]
      cases hins : insertNewFile s f with
      | mk s2 e =>
        have hnone : e = none := by
          have h2 := insertNewFile_outcome s f hlast
          rw [hins] at h2
          exact h2
        subst hnone
        simp
  · intro hp
    rw [hp] at he
    exact ⟨by simp [updateFile, h, he, hp], by simp [addFile, h, hp]⟩

theorem updateFile_nonexistent_true_witness :
    (updateFile demoStore { name := "x", path := "", content := 5 } none).2 = .ok true ∧
    (updateFile demoStore { name := "x", path := "", content := 5 } none).1 = demoStore ∧
    addFile demoStore { name := "x", path := "", content := 5 } none =
      (demoStore, .ok false) := by
  have h := updateFile_nonexistent_true demoStore
    { name := "x", path := "", content := 5 } none (by decide) (by decide) (by decide)
  exact ⟨h.1, (h.2 rfl).1, (h.2 rfl).2⟩

/-- C5 counterexample: on a fresh store, two sequential `loadChunk 0` calls
whose fetches both resolve successfully (with an empty chunk) perform two
remote fetches: occupancy is judged by `length > 0`, so a stored empty chunk
is not seen as loaded. -/
theorem loadChunk_twice_two_fetches :
    loadChunkFetchCount2 (mkStore Nat "acme" [] "t0") 0 (some []) = 2 := by
  decide

/-- C5 (amended): two sequential `loadChunk i` calls perform at most one
remote fetch for index `i`, provided the first fetch (if one happens at all)
resolves with a non-empty chunk; a chunk that resolves empty leaves the slot
judged unoccupied and is fetched again. -/
theorem loadChunk_memoized_nonempty (s : DocumentStore α) (i : Nat)
    (c : List (StructuredFile α)) (hc : c ≠ []) :
    loadChunkFetchCount2 s i (some c) ≤ 1 := by
  by_cases h : isChunkLoaded s i = true
  · simp [loadChunkFetchCount2, loadChunkFetches, loadChunk, h]
  · have h' : isChunkLoaded s i = false := by simpa using h
    have hyes : isChunkLoaded (loadChunk s i (some c)).1 i = true := by
      simp only [loadChunk, h', Bool.false_eq_true, if_false]
      simp only [isChunkLoaded, jsGetSlot_jsSetPad_self]
      simpa using List.length_pos.mpr hc
    simp [loadChunkFetchCount2, loadChunkFetches, h', hyes]

theorem loadChunk_memoized_nonempty_witness :
    loadChunkFetchCount2 (mkStore Nat "acme" [] "t0") 0
      (some [{ name := "a", path := "a.js", content := 0 }]) ≤ 1 :=
  loadChunk_memoized_nonempty (mkStore Nat "acme" [] "t0") 0
    [{ name := "a", path := "a.js", content := 0 }] (by decide)

/-- C7 counterexample: in a fully loaded store whose lookup table contains the
empty-string path (as a remote summary may supply), `addFile` and `updateFile`
on an empty-path file end in different states: `addFile` rejects the empty
path before its existence check, while `updateFile` performs the in-place
update. -/
theorem upsert_empty_path_counterexample :
    c7Store.statusChunks = true ∧ isChunkLoaded c7Store 0 = true ∧
    fileExists c7Store "" = true ∧
    (addFile c7Store { name := "f", path := "", content := 1 } none).1 ≠
      (updateFile c7Store { name := "f", path := "", content := 1 } none).1 :=
  ⟨by decide, by decide, by decide, by decide⟩

/-- C7 (amended): with chunks loaded, for every file with a non-empty path,
`addFile` and `updateFile` leave the store in the identical final state —
whether the path already exists (both run the located update) or not (both run
the insertion path). -/
theorem addFile_updateFile_same_state (s : DocumentStore α) (f : StructuredFile α)
    (r : Option (List (StructuredFile α)))
    (h : s.statusChunks = true) (hp : f.path ≠ "") :
    (addFile s f r).1 = (updateFile s f r).1 := by
  by_cases he : fileExists s f.path
  · simp [addFile, updateFile, h, he, hp]
  · have he' : fileExists s f.path = false := by simpa using he
    simp only [addFile, updateFile, h, he', hp]
    cases hins : insertNewFile s f with
    | mk s2 e => cases e <;> simp [hins]

theorem getD_set_self (l : List γ) (i : Nat) (a d : γ) (h : i < l.length) :
    (l.set i a).getD i d = a := by
  rw [List.getD_eq_getElem?_getD, List.getElem?_set_eq_of_lt _ h]
  rfl

theorem getD_set_ne (l : List γ) (i j : Nat) (a d : γ) (h : i ≠ j) :
    (l.set i a).getD j d = l.getD j d := by
  rw [List.getD_eq_getElem?_getD, List.getElem?_set_ne h, ← List.getD_eq_getElem?_getD]

theorem wfB_iff [DecidableEq α] (s : DocumentStore α) : wfB s = true ↔ WF s := by
  unfold wfB
  simp only [Bool.and_eq_true, List.all_eq_true, List.mem_range, decide_eq_true_eq,
    beq_iff_eq]
  constructor
  · rintro ⟨⟨⟨⟨⟨h1, h2⟩, h3⟩, h4⟩, h5⟩, h6⟩
    exact ⟨h1, h2, fun j hj => h3 j (by omega) hj, fun j hj => h4 j hj, h5,
      fun j hj => h6 j hj⟩
  · rintro ⟨h1, h2, h3, h4, h5, h6⟩
    exact ⟨⟨⟨⟨⟨h1, h2⟩, fun j _ hj2 => h3 j hj2⟩, fun j hj => h4 j hj⟩, h5⟩,
      fun j hj => h6 j hj⟩

theorem alignedB_iff [DecidableEq α] (s : DocumentStore α) : alignedB s = true ↔
    ∀ i < s.chunks.length, ∀ o < ((bodies s).getD i []).length,
      jsGetSlot s.content (i * s.CHUNK_SIZE + o) = jsGetSlot ((bodies s).getD i []) o := by
  unfold alignedB
  simp [List.all_eq_true, List.mem_range]

theorem lenEqB_iff (s : DocumentStore α) :
    lenEqB s = true ↔ s.lookup.length = s.chunks.length := by
  simp [lenEqB]

theorem jsFindIndex_some (p : β → Bool) :
    ∀ (l : List β) (i : Nat), jsFindIndex p l = some i →
      ∃ b, l[i]? = some b ∧ p b = true := by
  intro l
  induction l with
  | nil => intro i h; simp [jsFindIndex] at h
  | cons b t ih =>
    intro i h
    by_cases hp : p b = true
    · simp only [jsFindIndex, hp, if_true, Option.some.injEq] at h
      subst h
      exact ⟨b, by simp, hp⟩
    · have hp' : p b = false := by simpa using hp
      simp only [jsFindIndex, hp', Bool.false_eq_true, if_false] at h
      cases hf : jsFindIndex p t with
      | none => rw [hf] at h; simp at h
      | some i2 =>
        rw [hf] at h
        simp only [Option.map_some', Option.some.injEq] at h
        obtain ⟨b2, hb2, hpb2⟩ := ih i2 hf
        subst h
        exact ⟨b2, by simpa [List.getElem?_cons_succ] using hb2, hpb2⟩

theorem jsIndexOf_some_of_mem (x : String) :
    ∀ (l : List String), x ∈ l →
      ∃ i, jsIndexOf x l = some i ∧ l[i]? = some x := by
  intro l
  induction l with
  | nil => intro h; cases h
  | cons b t ih =>
    intro h
    by_cases hb : b = x
    · subst hb
      exact ⟨0, by simp [jsIndexOf, jsFindIndex], by simp⟩
    · have hx : x ∈ t := by
        rcases List.mem_cons.mp h with h1 | h1
        · exact absurd h1.symm hb
        · exact h1
      obtain ⟨i, hi, hgi⟩ := ih hx
      have hbeq : (b == x) = false := beq_eq_false_iff_ne.mpr hb
      refine ⟨i + 1, ?_, by simpa [List.getElem?_cons_succ] using hgi⟩
      unfold jsIndexOf at hi ⊢
      simp only [jsFindIndex, hbeq, Bool.false_eq_true, if_false, hi, Option.map_some']

theorem jsGetSlot_of_lt_length (l : List (Option β)) (i : Nat) (h : l.length ≤ i) :
    jsGetSlot l i = none := by
  simp [jsGetSlot, List.getElem?_eq_none h]

theorem jsSetPad_lt (l : List (Option β)) (i : Nat) (v : β) (h : i < l.length) :
    jsSetPad l i v = l.set i (some v) := by
  simp [jsSetPad, h]

theorem jsSetPad_append (l : List (Option β)) (v : β) :
    jsSetPad l l.length v = l ++ [some v] := by
  simp [jsSetPad]

theorem chunks_dense_getD (s : DocumentStore α)
    (hd : ∀ sl ∈ s.chunks, sl.isSome = true) (j : Nat) (hj : j < s.chunks.length) :
    s.chunks[j]? = some (some ((bodies s).getD j [])) ∧
    jsGetSlot s.chunks j = some ((bodies s).getD j []) := by
  obtain ⟨sl, hsl⟩ : ∃ sl, s.chunks[j]? = some sl :=
    ⟨s.chunks[j], List.getElem?_eq_getElem hj⟩
  have hmem : sl ∈ s.chunks := List.getElem?_mem hsl
  obtain ⟨body, hbody⟩ := Option.isSome_iff_exists.mp (hd sl hmem)
  subst hbody
  have hb : (bodies s).getD j [] = body := by
    rw [bodies, List.getD_eq_getElem?_getD, List.getElem?_map, hsl]
    rfl
  rw [hb]
  exact ⟨hsl, by simp [jsGetSlot, hsl]⟩

theorem flatten_getElem_aligned (k : Nat) :
    ∀ (bs : List (List γ)) (i o : Nat),
      (∀ j, j + 1 < bs.length → (bs.getD j []).length = k) →
      i < bs.length → o < (bs.getD i []).length →
      bs.flatten[i * k + o]? = (bs.getD i [])[o]? := by
  intro bs
  induction bs with
  | nil => intro i o _ hi _; simp at hi
  | cons b t ih =>
    intro i o hfull hi ho
    cases i with
    | zero =>
      simp only [List.getD_cons_zero] at ho ⊢
      rw [List.flatten_cons, Nat.zero_mul, Nat.zero_add]
      exact List.getElem?_append_left ho
    | succ i2 =>
      have hi2 : i2 < t.length := by simpa using Nat.lt_of_succ_lt_succ (by simpa using hi)
      have hb : b.length = k := by
        have h0 := hfull 0 (by simp only [List.length_cons]; omega)
        simpa using h0
      have hidx : (i2 + 1) * k + o = b.length + (i2 * k + o) := by
        rw [hb, Nat.succ_mul]
        omega
      rw [List.flatten_cons, hidx, List.getElem?_append_right (Nat.le_add_right _ _),
        Nat.add_sub_cancel_left]
      have hfull2 : ∀ j, j + 1 < t.length → (t.getD j []).length = k := by
        intro j hj
        have := hfull (j + 1) (by simp only [List.length_cons]; omega)
        simpa using this
      have ho2 : o < (t.getD i2 []).length := by simpa using ho
      have := ih i2 o hfull2 hi2 ho2
      simpa using this

theorem flatten_set_aligned (k : Nat) :
    ∀ (bs : List (List γ)) (i o : Nat) (v : γ),
      (∀ j, j + 1 < bs.length → (bs.getD j []).length = k) →
      i < bs.length → o < (bs.getD i []).length →
      i * k + o < bs.flatten.length ∧
      (bs.set i ((bs.getD i []).set o v)).flatten = bs.flatten.set (i * k + o) v := by
  intro bs
  induction bs with
  | nil => intro i o v _ hi _; simp at hi
  | cons b t ih =>
    intro i o v hfull hi ho
    cases i with
    | zero =>
      simp only [List.getD_cons_zero] at ho ⊢
      constructor
      · rw [List.flatten_cons, Nat.zero_mul, Nat.zero_add, List.length_append]
        omega
      · rw [List.set_cons_zero, List.flatten_cons, List.flatten_cons, Nat.zero_mul,
          Nat.zero_add, List.set_append_left _ _ ho]
    | succ i2 =>
      simp only [List.getD_cons_succ] at ho ⊢
      have hi2 : i2 < t.length := by simpa using Nat.lt_of_succ_lt_succ (by simpa using hi)
      have hb : b.length = k := by
        have h0 := hfull 0 (by simp only [List.length_cons]; omega)
        simpa using h0
      have hidx : (i2 + 1) * k + o = b.length + (i2 * k + o) := by
        rw [hb, Nat.succ_mul]
        omega
      have hfull2 : ∀ j, j + 1 < t.length → (t.getD j []).length = k := by
        intro j hj
        have := hfull (j + 1) (by simp only [List.length_cons]; omega)
        simpa using this
      obtain ⟨hbound2, heq2⟩ := ih i2 o v hfull2 hi2 ho
      constructor
      · rw [List.flatten_cons, List.length_append]
        omega
      · rw [List.set_cons_succ, List.flatten_cons, List.flatten_cons, heq2, hidx,
          List.set_append_right _ _ (Nat.le_add_right _ _), Nat.add_sub_cancel_left]

theorem bodies_length (s : DocumentStore α) : (bodies s).length = s.chunks.length :=
  List.length_map ..

theorem getD_append_lt (l r : List γ) (j : Nat) (d : γ) (h : j < l.length) :
    (l ++ r).getD j d = l.getD j d := by
  rw [List.getD_eq_getElem?_getD, List.getElem?_append_left h, ← List.getD_eq_getElem?_getD]

theorem getD_append_self (l : List γ) (x d : γ) :
    (l ++ [x]).getD l.length d = x := by
  rw [List.getD_eq_getElem?_getD, List.getElem?_append_right (le_refl _)]
  simp

theorem getD_dropLast (l : List γ) (j : Nat) (d : γ) (h : j < l.length - 1) :
    l.dropLast.getD j d = l.getD j d := by
  rw [List.getD_eq_getElem?_getD, List.getElem?_dropLast, if_pos h,
    ← List.getD_eq_getElem?_getD]

theorem getD_length_set (bs : List (List γ)) (ci : Nat) (nb : List γ)
    (hl : nb.length = (bs.getD ci []).length) (j : Nat) :
    ((bs.set ci nb).getD j []).length = (bs.getD j []).length := by
  by_cases h : ci = j
  · subst h
    by_cases hci : ci < bs.length
    · rw [getD_set_self _ _ _ _ hci, hl]
    · rw [List.set_eq_of_length_le (Nat.le_of_not_lt hci)]
  · rw [getD_set_ne _ _ _ _ _ h]

theorem eq_dropLast_append_getLast? (l : List γ) (x : γ) (h : l.getLast? = some x) :
    l = l.dropLast ++ [x] := by
  obtain ⟨ys, rfl⟩ := List.getLast?_eq_some_iff.mp h
  rw [List.dropLast_concat]

theorem insertNewFile_eq_empty (s : DocumentStore α) (f : StructuredFile α)
    (hl : s.lookup = []) (hc : s.chunks = []) :
    insertNewFile s f =
      ({ s with
          lookup := [[f.path]]
          chunks := [some [some f]]
          content := s.content ++ [some f] }, none) := by
  simp [insertNewFile, addToEndOfLookup, addToEndOfChunks, pushBucket, hl, hc]

theorem insertNewFile_eq_push (s : DocumentStore α) (f : StructuredFile α)
    (lastBucket : List String) (lastBody : List (Option (StructuredFile α)))
    (hl : s.lookup.getLast? = some lastBucket)
    (hc : s.chunks.getLast? = some (some lastBody))
    (hfullL : lastBucket.length = s.CHUNK_SIZE)
    (hfullC : lastBody.length = s.CHUNK_SIZE) :
    insertNewFile s f =
      ({ s with
          lookup := s.lookup ++ [[f.path]]
          chunks := s.chunks ++ [some [some f]]
          content := s.content ++ [some f] }, none) := by
  simp [insertNewFile, addToEndOfLookup, addToEndOfChunks, pushBucket, hl, hc, hfullL, hfullC]

theorem insertNewFile_eq_append (s : DocumentStore α) (f : StructuredFile α)
    (lastBucket : List String) (lastBody : List (Option (StructuredFile α)))
    (hl : s.lookup.getLast? = some lastBucket)
    (hc : s.chunks.getLast? = some (some lastBody))
    (hfullL : lastBucket.length ≠ s.CHUNK_SIZE)
    (hfullC : lastBody.length ≠ s.CHUNK_SIZE) :
    insertNewFile s f =
      ({ s with
          lookup := s.lookup.dropLast ++ [lastBucket ++ [f.path]]
          chunks := s.chunks.dropLast ++ [some (lastBody ++ [some f])]
          content := s.content ++ [some f] }, none) := by
  simp [insertNewFile, addToEndOfLookup, addToEndOfChunks, pushBucket, hl, hc, hfullL, hfullC]

theorem updateCore_eq (s : DocumentStore α) (f : StructuredFile α)
    (r : Option (List (StructuredFile α))) (hwf : WF s)
    (hlen : s.lookup.length = s.chunks.length) (he : fileExists s f.path = true) :
    ∃ ci fi, ci < s.chunks.length ∧ fi < ((bodies s).getD ci []).length ∧
      (s.lookup.getD ci [])[fi]? = some f.path ∧
      updateExistingCore s f r =
        ({ s with
            chunks := s.chunks.set ci (some (((bodies s).getD ci []).set fi (some f)))
            content := s.content.set (ci * s.CHUNK_SIZE + fi) (some f) }, .ok true) := by
  unfold fileExists at he
  obtain ⟨ci, hfind⟩ := Option.isSome_iff_exists.mp he
  obtain ⟨bucket2, hbucket2, hcontains⟩ := jsFindIndex_some _ _ _ hfind
  have hcil : ci < s.lookup.length := (List.getElem?_eq_some.mp hbucket2).1
  have hci : ci < s.chunks.length := hlen ▸ hcil
  have hbd : s.lookup.getD ci [] = bucket2 := by
    rw [List.getD_eq_getElem?_getD, hbucket2]
    rfl
  have hpmem : f.path ∈ bucket2 := by simpa [getFileHash] using hcontains
  obtain ⟨hslotElem, hslot⟩ := chunks_dense_getD s hwf.dense ci hci
  have hbl : (s.lookup.getD ci []).length = ((bodies s).getD ci []).length := hwf.lock ci hci
  have hbpos : 0 < ((bodies s).getD ci []).length := by
    rw [← hbl, hbd]
    exact List.length_pos.mpr (List.ne_nil_of_mem hpmem)
  have hloaded : isChunkLoaded s ci = true := by
    unfold isChunkLoaded
    rw [hslot]
    simpa using hbpos
  obtain ⟨fi, hfi, hfig⟩ := jsIndexOf_some_of_mem f.path bucket2 hpmem
  have hfil : fi < bucket2.length := (List.getElem?_eq_some.mp hfig).1
  have hfib : fi < ((bodies s).getD ci []).length := by
    rw [← hbl, hbd]
    exact hfil
  have hfull2 : ∀ j, j + 1 < (bodies s).length → ((bodies s).getD j []).length
      = s.CHUNK_SIZE := by
    intro j hj
    exact hwf.full j (by rwa [bodies_length] at hj)
  have hposlt : ci * s.CHUNK_SIZE + fi < s.content.length := by
    rw [hwf.flat]
    exact (flatten_set_aligned s.CHUNK_SIZE (bodies s) ci fi (some f) hfull2
      (by rwa [bodies_length]) hfib).1
  refine ⟨ci, fi, hci, hfib, by rw [hbd]; exact hfig, ?_⟩
  have hfind2 : getChunkFileIsIn s f.path = some ci := hfind
  have hfi2 : getFileIndexInChunk s ci f.path = some fi := by
    unfold getFileIndexInChunk
    rw [hbd]
    exact hfi
  unfold updateExistingCore
  rw [hfind2]
  simp only [hloaded, if_true, hslot, hfi2]
  rw [jsSetPad_lt _ _ _ hfib, jsSetPad_lt _ _ _ hci, jsSetPad_lt _ _ _ hposlt]

theorem updateCore_fields (s : DocumentStore α) (f : StructuredFile α)
    (r : Option (List (StructuredFile α))) (hwf : WF s)
    (hlen : s.lookup.length = s.chunks.length) :
    WF (updateExistingCore s f r).1 ∧
    (updateExistingCore s f r).1.lookup = s.lookup ∧
    (updateExistingCore s f r).1.chunks.length = s.chunks.length ∧
    (updateExistingCore s f r).1.CHUNK_SIZE = s.CHUNK_SIZE ∧
    (updateExistingCore s f r).1.statusChunks = s.statusChunks := by
  by_cases he : fileExists s f.path = true
  · obtain ⟨ci, fi, hci, hfib, hfig, heq⟩ := updateCore_eq s f r hwf hlen he
    rw [heq]
    have hbset : bodies ({ s with
        chunks := s.chunks.set ci (some (((bodies s).getD ci []).set fi (some f)))
        content := s.content.set (ci * s.CHUNK_SIZE + fi) (some f) }) =
        (bodies s).set ci (((bodies s).getD ci []).set fi (some f)) := by
      simp [bodies, List.map_set]
    have hlenpres : ∀ j,
        (((bodies s).set ci (((bodies s).getD ci []).set fi (some f))).getD j []).length =
          ((bodies s).getD j []).length := by
      intro j
      exact getD_length_set (bodies s) ci _ (List.length_set ..) j
    have hfull2 : ∀ j, j + 1 < (bodies s).length →
        ((bodies s).getD j []).length = s.CHUNK_SIZE := by
      intro j hj
      exact hwf.full j (by rwa [bodies_length] at hj)
    refine ⟨?_, rfl, by simp, rfl, rfl⟩
    refine ⟨hwf.kpos, ?_, ?_, ?_, ?_, ?_⟩
    · intro sl hmem
      rcases List.mem_or_eq_of_mem_set hmem with h | h
      · exact hwf.dense sl h
      · rw [h]
        rfl
    · intro j hj
      simp only [List.length_set] at hj
      rw [hbset, hlenpres j]
      exact hwf.full j hj
    · intro j hj
      simp only [List.length_set] at hj
      rw [hbset, hlenpres j]
      exact hwf.cap j hj
    · show s.content.set (ci * s.CHUNK_SIZE + fi) (some f) = _
      rw [hbset, (flatten_set_aligned s.CHUNK_SIZE (bodies s) ci fi (some f) hfull2
        (by rwa [bodies_length]) hfib).2, hwf.flat]
    · intro j hj
      simp only [List.length_set] at hj
      rw [hbset, hlenpres j]
      exact hwf.lock j hj
  · have hnone : getChunkFileIsIn s f.path = none := by
      unfold fileExists at he
      exact Option.not_isSome_iff_eq_none.mp he
    have heq : updateExistingCore s f r = (s, .ok false) := by
      unfold updateExistingCore
      rw [hnone]
    rw [heq]
    exact ⟨hwf, rfl, rfl, rfl, rfl⟩

theorem insert_fields (s : DocumentStore α) (f : StructuredFile α) (hwf : WF s)
    (hlen : s.lookup.length = s.chunks.length) :
    (insertNewFile s f).2 = none ∧ WF (insertNewFile s f).1 ∧
    (insertNewFile s f).1.lookup.length = (insertNewFile s f).1.chunks.length ∧
    (insertNewFile s f).1.CHUNK_SIZE = s.CHUNK_SIZE ∧
    (insertNewFile s f).1.statusChunks = s.statusChunks := by
  rcases Nat.eq_zero_or_pos s.chunks.length with hn | hn
  · have hc : s.chunks = [] := List.length_eq_zero.mp hn
    have hl : s.lookup = [] := List.length_eq_zero.mp (by omega)
    have hcont : s.content = [] := by
      rw [hwf.flat, bodies, hc]
      rfl
    rw [insertNewFile_eq_empty s f hl hc]
    refine ⟨rfl, ?_, rfl, rfl, rfl⟩
    refine ⟨hwf.kpos, ?_, ?_, ?_, ?_, ?_⟩
    · intro sl hmem
      simp only [List.mem_singleton] at hmem
      rw [hmem]
      rfl
    · intro j hj
      simp only [List.length_singleton] at hj
      omega
    · intro j hj
      simp only [List.length_singleton] at hj
      have hj0 : j = 0 := by omega
      subst hj0
      show ([some f] : List (Option (StructuredFile α))).length ≤ s.CHUNK_SIZE
      have := hwf.kpos
      simp only [List.length_singleton]
      omega
    · show s.content ++ [some f] = _
      rw [hcont]
      rfl
    · intro j hj
      simp only [List.length_singleton] at hj
      have hj0 : j = 0 := by omega
      subst hj0
      rfl
  · have hcne : s.chunks ≠ [] := List.ne_nil_of_length_pos hn
    have hlne : s.lookup ≠ [] := List.ne_nil_of_length_pos (by omega)
    obtain ⟨sl, hsl⟩ := Option.isSome_iff_exists.mp (List.getLast?_isSome.mpr hcne)
    have hslSome : sl.isSome = true := hwf.dense sl (List.mem_of_getLast?_eq_some hsl)
    obtain ⟨lastBody, rfl⟩ := Option.isSome_iff_exists.mp hslSome
    obtain ⟨lastBucket, hlb⟩ := Option.isSome_iff_exists.mp (List.getLast?_isSome.mpr hlne)
    have hbody : (bodies s).getD (s.chunks.length - 1) [] = lastBody := by
      rw [bodies, List.getD_eq_getElem?_getD, List.getElem?_map,
        ← List.getLast?_eq_getElem?, hsl]
      rfl
    have hbucket : s.lookup.getD (s.chunks.length - 1) [] = lastBucket := by
      rw [List.getD_eq_getElem?_getD,
        show s.chunks.length - 1 = s.lookup.length - 1 by omega,
        ← List.getLast?_eq_getElem?, hlb]
      rfl
    have hlensEq : lastBucket.length = lastBody.length := by
      have h := hwf.lock (s.chunks.length - 1) (by omega)
      rw [hbucket, hbody] at h
      exact h
    by_cases hfull : lastBucket.length = s.CHUNK_SIZE
    · have hfullC : lastBody.length = s.CHUNK_SIZE := by omega
      have hOldFull : ∀ j, j < s.chunks.length →
          ((bodies s).getD j []).length = s.CHUNK_SIZE := by
        intro j hj
        rcases Nat.lt_or_ge (j + 1) s.chunks.length with h1 | h1
        · exact hwf.full j h1
        · have hj2 : j = s.chunks.length - 1 := by omega
          rw [hj2, hbody]
          exact hfullC
      rw [insertNewFile_eq_push s f lastBucket lastBody hlb hsl hfull hfullC]
      have hbset : bodies ({ s with
          lookup := s.lookup ++ [[f.path]]
          chunks := s.chunks ++ [some [some f]]
          content := s.content ++ [some f] }) = bodies s ++ [[some f]] := by
        simp [bodies, List.map_append]
      refine ⟨rfl, ?_, by simp [hlen], rfl, rfl⟩
      refine ⟨hwf.kpos, ?_, ?_, ?_, ?_, ?_⟩
      · intro sl2 hmem
        rcases List.mem_append.mp hmem with h | h
        · exact hwf.dense sl2 h
        · simp only [List.mem_singleton] at h
          rw [h]
          rfl
      · intro j hj
        simp only [List.length_append, List.length_singleton] at hj
        have hjn : j < s.chunks.length := by omega
        rw [hbset, getD_append_lt _ _ _ _ (by rw [bodies_length]; exact hjn)]
        exact hOldFull j hjn
      · intro j hj
        simp only [List.length_append, List.length_singleton] at hj
        rcases Nat.lt_or_ge j s.chunks.length with hjn | hjn
        · rw [hbset, getD_append_lt _ _ _ _ (by rw [bodies_length]; exact hjn)]
          exact hwf.cap j hjn
        · have hj2 : j = s.chunks.length := by omega
          rw [hbset, hj2, show s.chunks.length = (bodies s).length from (bodies_length s).symm,
            getD_append_self]
          have := hwf.kpos
          simp only [List.length_singleton]
          omega
      · show s.content ++ [some f] = _
        rw [hbset, hwf.flat]
        simp
      · intro j hj
        simp only [List.length_append, List.length_singleton] at hj
        rcases Nat.lt_or_ge j s.chunks.length with hjn | hjn
        · show ((s.lookup ++ [[f.path]]).getD j []).length = _
          rw [hbset, getD_append_lt s.lookup _ j _ (by omega),
            getD_append_lt (bodies s) _ j _ (by rw [bodies_length]; exact hjn)]
          exact hwf.lock j hjn
        · have hj2 : j = s.chunks.length := by omega
          show ((s.lookup ++ [[f.path]]).getD j []).length = _
          rw [hbset, hj2, show s.chunks.length = (bodies s).length from (bodies_length s).symm,
            getD_append_self,
            show (bodies s).length = s.lookup.length by rw [bodies_length]; omega,
            getD_append_self]
          rfl
    · have hfullC : lastBody.length ≠ s.CHUNK_SIZE := by omega
      rw [insertNewFile_eq_append s f lastBucket lastBody hlb hsl hfull hfullC]
      have hbset : bodies ({ s with
          lookup := s.lookup.dropLast ++ [lastBucket ++ [f.path]]
          chunks := s.chunks.dropLast ++ [some (lastBody ++ [some f])]
          content := s.content ++ [some f] }) =
          (bodies s).dropLast ++ [lastBody ++ [some f]] := by
      -- map over dropLast commutes
        simp [bodies, List.map_append, List.map_dropLast]
      have hdll : (bodies s).dropLast.length = s.chunks.length - 1 := by
        rw [List.length_dropLast, bodies_length]
      have hdecomp : bodies s = (bodies s).dropLast ++ [lastBody] := by
        apply eq_dropLast_append_getLast?
        rw [bodies, List.getLast?_map, hsl]
        rfl
      have hgetD : ∀ j, j < s.chunks.length - 1 →
          (((bodies s).dropLast ++ [lastBody ++ [some f]]).getD j []) =
            (bodies s).getD j [] := by
        intro j hj
        rw [getD_append_lt _ _ _ _ (by omega), getD_dropLast _ _ _ (by rw [bodies_length]; omega)]
      have hgetDLast :
          (((bodies s).dropLast ++ [lastBody ++ [some f]]).getD (s.chunks.length - 1) []) =
            lastBody ++ [some f] := by
        rw [show s.chunks.length - 1 = (bodies s).dropLast.length from hdll.symm, getD_append_self]
      have hlennew : (s.chunks.dropLast ++ [some (lastBody ++ [some f])]).length
          = s.chunks.length := by
        simp only [List.length_append, List.length_dropLast, List.length_singleton]
        omega
      refine ⟨rfl, ?_, ?_, rfl, rfl⟩
      · refine ⟨hwf.kpos, ?_, ?_, ?_, ?_, ?_⟩
        · intro sl2 hmem
          rcases List.mem_append.mp hmem with h | h
          · exact hwf.dense sl2 (List.mem_of_mem_dropLast h)
          · simp only [List.mem_singleton] at h
            rw [h]
            rfl
        · intro j hj
          rw [hlennew] at hj
          rw [hbset, hgetD j (by omega)]
          exact hwf.full j hj
        · intro j hj
          rw [hlennew] at hj
          rcases Nat.lt_or_ge j (s.chunks.length - 1) with hjn | hjn
          · rw [hbset, hgetD j hjn]
            exact hwf.cap j (by omega)
          · have hj2 : j = s.chunks.length - 1 := by omega
            rw [hbset, hj2, hgetDLast]
            have hcap := hwf.cap (s.chunks.length - 1) (by omega)
            rw [hbody] at hcap
            simp only [List.length_append, List.length_singleton]
            omega
        · show s.content ++ [some f] = _
          rw [hbset, hwf.flat]
          conv_lhs => rw [hdecomp]
          simp
        · intro j hj
          rw [hlennew] at hj
          show ((s.lookup.dropLast ++ [lastBucket ++ [f.path]]).getD j []).length = _
          rcases Nat.lt_or_ge j (s.chunks.length - 1) with hjn | hjn
          · rw [hbset, hgetD j hjn, getD_append_lt _ _ _ _ (by rw [List.length_dropLast]; omega),
              getD_dropLast _ _ _ (by omega)]
            exact hwf.lock j (by omega)
          · have hj2 : j = s.chunks.length - 1 := by omega
            rw [hbset, hj2, hgetDLast,
              show s.chunks.length - 1 = s.lookup.dropLast.length by
                rw [List.length_dropLast]; omega,
              getD_append_self]
            simp only [List.length_append, List.length_singleton]
            omega
      · show (s.lookup.dropLast ++ [lastBucket ++ [f.path]]).length = _
        rw [hlennew]
        simp only [List.length_append, List.length_dropLast, List.length_singleton]
        omega

theorem addFile_fields (s : DocumentStore α) (f : StructuredFile α)
    (r : Option (List (StructuredFile α))) (hwf : WF s)
    (hlen : s.lookup.length = s.chunks.length) :
    WF (addFile s f r).1 ∧
    (addFile s f r).1.lookup.length = (addFile s f r).1.chunks.length := by
  unfold addFile
  by_cases hst : s.statusChunks = false
  · rw [if_pos hst]
    exact ⟨hwf, hlen⟩
  · rw [if_neg hst]
    by_cases hp : f.path = ""
    · rw [if_pos hp]
      exact ⟨hwf, hlen⟩
    · rw [if_neg hp]
      by_cases he : fileExists s f.path = true
      · rw [if_pos he]
        obtain ⟨h1, h2, h3, _, _⟩ := updateCore_fields s f r hwf hlen
        exact ⟨h1, by rw [h2, h3, hlen]⟩
      · rw [if_neg he]
        obtain ⟨h0, h1, h2, _, _⟩ := insert_fields s f hwf hlen
        cases hins : insertNewFile s f with
        | mk s2 e =>
          have hn : e = none := by rw [hins] at h0; exact h0
          subst hn
          rw [hins] at h1 h2
          exact ⟨h1, h2⟩

theorem updateFile_fields (s : DocumentStore α) (f : StructuredFile α)
    (r : Option (List (StructuredFile α))) (hwf : WF s)
    (hlen : s.lookup.length = s.chunks.length) :
    WF (updateFile s f r).1 ∧
    (updateFile s f r).1.lookup.length = (updateFile s f r).1.chunks.length := by
  unfold updateFile
  by_cases hst : s.statusChunks = false
  · rw [if_pos hst]
    exact ⟨hwf, hlen⟩
  · rw [if_neg hst]
    by_cases he : fileExists s f.path = false
    · rw [if_pos he]
      by_cases hp : f.path = ""
      · rw [if_pos hp]
        exact ⟨hwf, hlen⟩
      · rw [if_neg hp]
        obtain ⟨h0, h1, h2, _, _⟩ := insert_fields s f hwf hlen
        cases hins : insertNewFile s f with
        | mk s2 e =>
          have hn : e = none := by rw [hins] at h0; exact h0
          subst hn
          rw [hins] at h1 h2
          exact ⟨h1, h2⟩
    · rw [if_neg he]
      obtain ⟨h1, h2, h3, _, _⟩ := updateCore_fields s f r hwf hlen
      exact ⟨h1, by rw [h2, h3, hlen]⟩

theorem aligned_of_wf [DecidableEq α] (s : DocumentStore α) (hwf : WF s) :
    alignedB s = true := by
  rw [alignedB_iff]
  intro i hi o ho
  have hfull2 : ∀ j, j + 1 < (bodies s).length →
      ((bodies s).getD j []).length = s.CHUNK_SIZE :=
    fun j hj => hwf.full j (by rwa [bodies_length] at hj)
  have hget := flatten_getElem_aligned s.CHUNK_SIZE (bodies s) i o hfull2
    (by rwa [bodies_length]) ho
  unfold jsGetSlot
  rw [hwf.flat, hget]

theorem wf_loadChunk_next (s : DocumentStore α) (c : List (StructuredFile α)) (hwf : WF s)
    (hallfull : ∀ j, j < s.chunks.length → ((bodies s).getD j []).length = s.CHUNK_SIZE)
    (hbucket : (s.lookup.getD s.chunks.length []).length = c.length)
    (hcap : c.length ≤ s.CHUNK_SIZE) :
    WF (loadChunk s s.chunks.length (some c)).1 := by
  have hnl : isChunkLoaded s s.chunks.length = false := by
    unfold isChunkLoaded
    rw [jsGetSlot_of_lt_length _ _ (le_refl _)]
  have heq : loadChunk s s.chunks.length (some c) =
      ({ s with
          content := s.content ++ c.map some
          chunks := s.chunks ++ [some (c.map some)] }, true) := by
    unfold loadChunk
    simp only [hnl, Bool.false_eq_true, if_false]
    rw [jsSetPad_append]
  rw [heq]
  have hbset : bodies ({ s with
      content := s.content ++ c.map some
      chunks := s.chunks ++ [some (c.map some)] }) = bodies s ++ [c.map some] := by
    simp [bodies, List.map_append]
  refine ⟨hwf.kpos, ?_, ?_, ?_, ?_, ?_⟩
  · intro sl hmem
    rcases List.mem_append.mp hmem with h | h
    · exact hwf.dense sl h
    · simp only [List.mem_singleton] at h
      rw [h]
      rfl
  · intro j hj
    simp only [List.length_append, List.length_singleton] at hj
    have hjn : j < s.chunks.length := by omega
    rw [hbset, getD_append_lt _ _ _ _ (by rw [bodies_length]; exact hjn)]
    exact hallfull j hjn
  · intro j hj
    simp only [List.length_append, List.length_singleton] at hj
    rcases Nat.lt_or_ge j s.chunks.length with hjn | hjn
    · rw [hbset, getD_append_lt _ _ _ _ (by rw [bodies_length]; exact hjn)]
      exact hwf.cap j hjn
    · have hj2 : j = s.chunks.length := by omega
      rw [hbset, hj2, show s.chunks.length = (bodies s).length from (bodies_length s).symm,
        getD_append_self]
      simpa using hcap
  · show s.content ++ c.map some = _
    rw [hbset, hwf.flat]
    simp
  · intro j hj
    simp only [List.length_append, List.length_singleton] at hj
    rcases Nat.lt_or_ge j s.chunks.length with hjn | hjn
    · rw [hbset, getD_append_lt _ _ _ _ (by rw [bodies_length]; exact hjn)]
      exact hwf.lock j hjn
    · have hj2 : j = s.chunks.length := by omega
      rw [hbset, hj2, show s.chunks.length = (bodies s).length from (bodies_length s).symm,
        getD_append_self]
      rw [bodies_length, hbucket]
      simp

theorem lockstepOk_of_wf (s : DocumentStore α) (hwf : WF s)
    (hlen : s.lookup.length = s.chunks.length) : lockstepOkB s = true := by
  unfold lockstepOkB
  rw [Bool.and_eq_true]
  constructor
  · rw [List.all_eq_true]
    intro i hi
    rw [List.mem_range] at hi
    cases hslot : jsGetSlot s.chunks i with
    | none => simp [hslot]
    | some body =>
      have hb2 : s.chunks[i]? = some (some body) := Option.join_eq_some.mp hslot
      have hbd : (bodies s).getD i [] = body := by
        rw [bodies, List.getD_eq_getElem?_getD, List.getElem?_map, hb2]
        rfl
      have := hwf.lock i hi
      rw [hbd] at this
      simp only [hslot, beq_iff_eq]
      exact this
  · rw [List.all_eq_true]
    intro b hb
    obtain ⟨j, hj, hjb⟩ := List.getElem_of_mem hb
    have hbd : s.lookup.getD j [] = b := by
      rw [List.getD_eq_getElem?_getD, List.getElem?_eq_getElem hj, hjb]
      rfl
    have hjc : j < s.chunks.length := by omega
    have hcap := hwf.cap j hjc
    have hlock := hwf.lock j hjc
    rw [hbd] at hlock
    simp only [decide_eq_true_eq]
    omega

theorem outputChunksAux_spec (ns : String) (k : Nat) (hk : 0 < k) :
    ∀ (fuel : Nat) (l : List (Option (StructuredFile α))) (j : Nat), l.length ≤ fuel →
      ((outputChunksAux ns k fuel l j).length = (l.length + k - 1) / k ∧
       ((outputChunksAux ns k fuel l j).map Prod.snd).flatten = l ∧
       (∀ i e, (outputChunksAux ns k fuel l j)[i]? = some e →
         e.1 = chunkKeyToChunkPath ns (chunkIndexToChunkKey (j + i)) ∧
         0 < e.2.length ∧ e.2.length ≤ k ∧
         (i + 1 < (outputChunksAux ns k fuel l j).length → e.2.length = k))) := by
  intro fuel
  induction fuel with
  | zero =>
    intro l j hl
    have hnil : l = [] := List.eq_nil_of_length_eq_zero (Nat.le_zero.mp hl)
    subst hnil
    refine ⟨?_, rfl, ?_⟩
    · simpa [outputChunksAux] using (Nat.div_eq_of_lt (by omega : k - 1 < k)).symm
    · intro i e h
      simp [outputChunksAux] at h
  | succ fuel ih =>
    intro l j hl
    cases l with
    | nil =>
      refine ⟨?_, rfl, ?_⟩
      · simpa [outputChunksAux] using (Nat.div_eq_of_lt (by omega : k - 1 < k)).symm
      · intro i e h
        simp [outputChunksAux] at h
    | cons x t =>
      have hn : 0 < (x :: t).length := by simp
      have hfuel : ((x :: t).drop k).length ≤ fuel := by
        rw [List.length_drop]
        simp only [List.length_cons] at hl ⊢
        omega
      obtain ⟨ihlen, ihflat, ihent⟩ := ih ((x :: t).drop k) (j + 1) hfuel
      have hstep : outputChunksAux ns k (fuel + 1) (x :: t) j =
          (chunkKeyToChunkPath ns (chunkIndexToChunkKey j), (x :: t).take k) ::
            outputChunksAux ns k fuel ((x :: t).drop k) (j + 1) := rfl
      set rest := outputChunksAux ns k fuel ((x :: t).drop k) (j + 1) with hrest
      have hdroplen : ((x :: t).drop k).length = (x :: t).length - k := List.length_drop ..
      have hlen : (rest.length + 1) = ((x :: t).length + k - 1) / k := by
        rw [ihlen, hdroplen]
        rcases Nat.lt_or_ge k (x :: t).length with hlt | hge
        · have he : (x :: t).length + k - 1 = ((x :: t).length - k + k - 1) + k := by omega
          rw [he, Nat.add_div_right _ hk]
        · have h0 : (x :: t).length - k = 0 := by omega
          rw [h0]
          have hz : (0 + k - 1) / k = 0 := Nat.div_eq_of_lt (by omega)
          have ho : ((x :: t).length + k - 1) / k = 1 := by
            simp only [List.length_cons] at hge hn ⊢
            apply Nat.div_eq_of_lt_le
            · omega
            · omega
          omega
      have hrestlen : rest.length = ((x :: t).length - k + k - 1) / k := by
        rw [ihlen, hdroplen]
      refine ⟨?_, ?_, ?_⟩
      · rw [hstep]
        simpa using hlen
      · rw [hstep]
        simp only [List.map_cons, List.flatten_cons]
        rw [ihflat]
        exact List.take_append_drop k (x :: t)
      · intro i e h
        rw [hstep] at h
        cases i with
        | zero =>
          rw [List.getElem?_cons_zero] at h
          have he : e = (chunkKeyToChunkPath ns (chunkIndexToChunkKey j), (x :: t).take k) :=
            (Option.some.injEq _ _ ▸ h).symm
          subst he
          have htk : ((x :: t).take k).length = min k (x :: t).length := List.length_take ..
          refine ⟨by simp, ?_, ?_, ?_⟩
          · rw [htk]
            simp only [List.length_cons]
            omega
          · rw [htk]
            omega
          · intro hi
            rw [hstep] at hi
            simp only [List.length_cons] at hi
            have hrpos : 0 < rest.length := by omega
            have hklt : k < (x :: t).length := by
              by_contra hc
              have h0 : (x :: t).length - k = 0 := by omega
              rw [hrestlen, h0] at hrpos
              have : (0 + k - 1) / k = 0 := Nat.div_eq_of_lt (by omega)
              omega
            rw [htk]
            omega
        | succ i' =>
          rw [List.getElem?_cons_succ] at h
          obtain ⟨hkey, hpos, hle, hfull⟩ := ihent i' e h
          refine ⟨?_, hpos, hle, ?_⟩
          · rw [hkey]
            congr 2
            omega
          · intro hi
            rw [hstep] at hi
            simp only [List.length_cons] at hi
            exact hfull (by omega)

/-- C6: for every store with a positive chunk size `k` (the real instances
always carry the constructor's 40), `outputChunks` produces
`ceil (content.length / k)` entries; entry `i` is keyed by the chunk path of
index `i` (so the record's order is ascending chunk-key order), every slice is
non-empty and within capacity, every slice except the last has length exactly
`k`, and concatenating the slices in that order reproduces the content list. -/
theorem outputChunks_partition (s : DocumentStore α) (hk : 0 < s.CHUNK_SIZE) :
    (outputChunks s).length = (s.content.length + s.CHUNK_SIZE - 1) / s.CHUNK_SIZE ∧
    ((outputChunks s).map Prod.snd).flatten = s.content ∧
    (∀ i e, (outputChunks s)[i]? = some e →
      e.1 = chunkKeyToChunkPath s.nspace (chunkIndexToChunkKey i) ∧
      0 < e.2.length ∧ e.2.length ≤ s.CHUNK_SIZE ∧
      (i + 1 < (outputChunks s).length → e.2.length = s.CHUNK_SIZE)) := by
  obtain ⟨h1, h2, h3⟩ :=
    outputChunksAux_spec s.nspace s.CHUNK_SIZE hk s.content.length s.content 0 (le_refl _)
  refine ⟨h1, h2, ?_⟩
  intro i e h
  obtain ⟨hkey, hpos, hle, hfull⟩ := h3 i e h
  exact ⟨by simpa using hkey, hpos, hle, hfull⟩

theorem outputChunks_partition_witness :
    (outputChunks demoStore).length =
      (demoStore.content.length + demoStore.CHUNK_SIZE - 1) / demoStore.CHUNK_SIZE ∧
    ((outputChunks demoStore).map Prod.snd).flatten = demoStore.content :=
  ⟨(outputChunks_partition demoStore (by decide)).1,
   (outputChunks_partition demoStore (by decide)).2.1⟩

/-- C1 counterexample: starting from a freshly constructed store, loading the
summary (two buckets) and then lazily loading chunk 1 before chunk 0 — as a
`getFile` for a path of bucket 1 would — produces a reachable state with a
populated chunk slot whose records sit at the wrong content positions:
`loadChunk` appends fetched records at the end of the content list regardless
of the chunk index. -/
theorem alignment_out_of_order_counterexample :
    alignedB c1OutOfOrderStore = false ∧ isChunkLoaded c1OutOfOrderStore 1 = true :=
  ⟨by decide, by decide⟩

/-- C1 (amended): the alignment invariant holds in every well-formed state
(chunk slots contiguously populated, all chunks but the last full, content the
concatenation of the chunk bodies, buckets in lockstep), and it is preserved
by every mutation path that respects the load discipline: `addFile` and
`updateFile` preserve well-formedness (hence alignment) when the lookup table
and chunk array have the same number of groups, and `loadChunk` preserves it
when loading the next contiguous index of a store whose chunks are all full
with a chunk matching its bucket; an out-of-index-order lazy load, however,
violates the invariant (see the counterexample). -/
theorem alignment_invariant_amended (α : Type) [DecidableEq α] :
    (∀ s : DocumentStore α, wfB s = true → alignedB s = true) ∧
    (∀ (s : DocumentStore α) (f : StructuredFile α) (r : Option (List (StructuredFile α))),
      wfB s = true → lenEqB s = true →
      wfB (addFile s f r).1 = true ∧ lenEqB (addFile s f r).1 = true ∧
        alignedB (addFile s f r).1 = true) ∧
    (∀ (s : DocumentStore α) (f : StructuredFile α) (r : Option (List (StructuredFile α))),
      wfB s = true → lenEqB s = true →
      wfB (updateFile s f r).1 = true ∧ lenEqB (updateFile s f r).1 = true ∧
        alignedB (updateFile s f r).1 = true) ∧
    (∀ (s : DocumentStore α) (c : List (StructuredFile α)),
      wfB s = true →
      (∀ j, j < s.chunks.length → ((bodies s).getD j []).length = s.CHUNK_SIZE) →
      (s.lookup.getD s.chunks.length []).length = c.length →
      c.length ≤ s.CHUNK_SIZE →
      wfB (loadChunk s s.chunks.length (some c)).1 = true ∧
        alignedB (loadChunk s s.chunks.length (some c)).1 = true) := by
  refine ⟨?_, ?_, ?_, ?_⟩
  · intro s hwf
    exact aligned_of_wf s ((wfB_iff s).mp hwf)
  · intro s f r hwf hleq
    obtain ⟨h1, h2⟩ := addFile_fields s f r ((wfB_iff s).mp hwf) ((lenEqB_iff s).mp hleq)
    exact ⟨(wfB_iff _).mpr h1, (lenEqB_iff _).mpr h2, aligned_of_wf _ h1⟩
  · intro s f r hwf hleq
    obtain ⟨h1, h2⟩ := updateFile_fields s f r ((wfB_iff s).mp hwf) ((lenEqB_iff s).mp hleq)
    exact ⟨(wfB_iff _).mpr h1, (lenEqB_iff _).mpr h2, aligned_of_wf _ h1⟩
  · intro s c hwf hfull hbucket hcap
    have h1 := wf_loadChunk_next s c ((wfB_iff s).mp hwf) hfull hbucket hcap
    exact ⟨(wfB_iff _).mpr h1, aligned_of_wf _ h1⟩

theorem alignment_invariant_amended_witness :
    alignedB demoStore = true ∧
    wfB ((addFile demoStore { name := "d", path := "d.js", content := 4 } none).1) = true :=
  ⟨(alignment_invariant_amended Nat).1 demoStore (by decide),
   ((alignment_invariant_amended Nat).2.1 demoStore
      { name := "d", path := "d.js", content := 4 } none (by decide) (by decide)).1⟩

theorem load_empty_fields (ns : String) (tmpl : List (String × String))
    (now0 now1 : String) (rS : SummaryFetch)
    (rC : Nat → Option (List (StructuredFile α)))
    (hS : rS = .throws ∨ rS = .emptyObj) :
    (load (mkStore α ns tmpl now0) now1 rS rC).lookup = [] ∧
    (load (mkStore α ns tmpl now0) now1 rS rC).chunks = [] ∧
    (load (mkStore α ns tmpl now0) now1 rS rC).content = [] ∧
    (load (mkStore α ns tmpl now0) now1 rS rC).CHUNK_SIZE = 40 := by
  rcases hS with rfl | rfl <;>
    simp [load, loadSummary, mkStore]

/-- C3: from any state reached by `load()` on an empty remote (summary fetch
rejecting or yielding an empty object — the store then has an empty lookup and
no chunks to fetch), after any sequence of `addFile` calls — in particular any
sequence of successful ones, and at every intermediate point, since every
prefix of calls is itself such a sequence — each populated chunk slot has
exactly as many records as its lookup bucket has paths, and no bucket exceeds
`CHUNK_SIZE`. -/
theorem lockstep_growth (α : Type) [DecidableEq α] (ns : String)
    (tmpl : List (String × String)) (now0 now1 : String) (rS : SummaryFetch)
    (rC : Nat → Option (List (StructuredFile α)))
    (hS : rS = .throws ∨ rS = .emptyObj) (fs : List (StructuredFile α)) :
    lockstepOkB (addFiles (load (mkStore α ns tmpl now0) now1 rS rC) fs) = true := by
  obtain ⟨hl, hc, hcont, hk⟩ := load_empty_fields ns tmpl now0 now1 rS rC hS
  have hwf0 : WF (load (mkStore α ns tmpl now0) now1 rS rC) := by
    refine ⟨by rw [hk]; omega, ?_, ?_, ?_, ?_, ?_⟩
    · intro sl hm
      rw [hc] at hm
      cases hm
    · intro j hj
      rw [hc] at hj
      simp at hj
    · intro j hj
      rw [hc] at hj
      simp at hj
    · rw [hcont, bodies, hc]
      rfl
    · intro j hj
      rw [hc] at hj
      simp at hj
  have hlen0 : (load (mkStore α ns tmpl now0) now1 rS rC).lookup.length =
      (load (mkStore α ns tmpl now0) now1 rS rC).chunks.length := by
    rw [hl, hc]
    rfl
  have hind : ∀ (gs : List (StructuredFile α)) (t : DocumentStore α),
      WF t → t.lookup.length = t.chunks.length →
      WF (addFiles t gs) ∧ (addFiles t gs).lookup.length = (addFiles t gs).chunks.length := by
    intro gs
    induction gs with
    | nil => intro t h1 h2; exact ⟨h1, h2⟩
    | cons g rest ih =>
      intro t h1 h2
      obtain ⟨h3, h4⟩ := addFile_fields t g none h1 h2
      exact ih (addFile t g none).1 h3 h4
  obtain ⟨hwf, hleneq⟩ := hind fs _ hwf0 hlen0
  exact lockstepOk_of_wf _ hwf hleneq

theorem lockstep_growth_witness :
    lockstepOkB (addFiles (load (mkStore Nat "duck" [] "t0") "t1" .throws (fun _ => none))
      [{ name := "a", path := "a.js", content := 1 },
       { name := "b", path := "b.js", content := 2 },
       { name := "c", path := "c.js", content := 3 }]) = true :=
  lockstep_growth Nat "duck" [] "t0" "t1" .throws (fun _ => none) (Or.inl rfl)
    [{ name := "a", path := "a.js", content := 1 },
     { name := "b", path := "b.js", content := 2 },
     { name := "c", path := "c.js", content := 3 }]

theorem assoc_lookup_self (tmpl : List (String × String))
    (hnd : (tmpl.map Prod.fst).Nodup) (kv : String × String) (hm : kv ∈ tmpl) :
    tmpl.lookup kv.1 = some kv.2 := by
  induction tmpl with
  | nil => cases hm
  | cons hd t ih =>
    obtain ⟨k0, v0⟩ := hd
    simp only [List.map_cons, List.nodup_cons] at hnd
    rcases List.mem_cons.mp hm with h | h
    · subst h
      simp [List.lookup]
    · have hne : kv.1 ≠ k0 := by
        intro he
        exact hnd.1 (he ▸ List.mem_map_of_mem Prod.fst h)
      have hbeq : (kv.1 == k0) = false := beq_eq_false_iff_ne.mpr hne
      simp only [List.lookup, hbeq]
      exact ih hnd.2 h

theorem meta_fold_step_id (tmpl : List (String × String))
    (hnd : (tmpl.map Prod.fst).Nodup) (kv : String × String) (hm : kv ∈ tmpl) :
    (tmpl.map fun kv2 =>
      if kv2.1 = kv.1 then (kv2.1, ((tmpl.lookup kv.1).getD kv.2)) else kv2) = tmpl := by
  rw [assoc_lookup_self tmpl hnd kv hm]
  have hcong : ∀ kv2 ∈ tmpl,
      (if kv2.1 = kv.1 then (kv2.1, (some kv.2).getD kv.2) else kv2) = kv2 := by
    intro kv2 h2
    by_cases he : kv2.1 = kv.1
    · have hkv : kv2 = kv := List.inj_on_of_nodup_map hnd h2 hm he
      subst hkv
      simp
    · simp [he]
  calc (tmpl.map fun kv2 => if kv2.1 = kv.1 then (kv2.1, (some kv.2).getD kv.2) else kv2)
      = tmpl.map id := List.map_congr_left (fun a ha => hcong a ha)
    _ = tmpl := List.map_id tmpl

theorem meta_fold_id (tmpl : List (String × String)) (hnd : (tmpl.map Prod.fst).Nodup)
    (sub : List (String × String)) (hsub : ∀ kv ∈ sub, kv ∈ tmpl) :
    (sub.foldl (fun acc kv =>
      acc.map fun kv2 =>
        if kv2.1 = kv.1 then (kv2.1, ((tmpl.lookup kv.1).getD kv.2)) else kv2) tmpl) = tmpl := by
  induction sub with
  | nil => rfl
  | cons kv rest ih =>
    simp only [List.foldl_cons]
    rw [meta_fold_step_id tmpl hnd kv (hsub kv (List.mem_cons_self _ _))]
    exact ih (fun x hx => hsub x (List.mem_cons_of_mem _ hx))

/-- C8: `loadSummary` completes normally for every remote behaviour (the
embedding is a total function over all three fetch outcomes — the source
catches the rejection and every later step is non-throwing); when the fetch
rejects or yields an empty object it installs the default summary — version
"1", both timestamps fresh, the caller-supplied template as the meta fields,
and an empty lookup — and in every case it sets the summary-loaded flag.
The hypotheses record that the template's keys are distinct (JavaScript
object keys) and that the meta fields currently carry the template entries
(true from construction on). -/
theorem loadSummary_never_throws (s : DocumentStore α) (now : String) (r : SummaryFetch)
    (hnd : (s.metaTemplate.map Prod.fst).Nodup) (hex : s.meta.extra = s.metaTemplate) :
    ((loadSummary s now r).statusSummary = true) ∧
    (r = .throws ∨ r = .emptyObj →
      (loadSummary s now r).meta =
        { version := "1", created_at := now, updated_at := now, extra := s.metaTemplate } ∧
      (loadSummary s now r).lookup = []) := by
  constructor
  · cases r <;> rfl
  · have hmeta : ∀ req : SummaryFetch, req = .throws ∨ req = .emptyObj →
        (loadSummary s now req).meta =
          { version := "1", created_at := now, updated_at := now, extra := s.metaTemplate } := by
      rintro req (rfl | rfl) <;>
      · simp only [loadSummary, Option.some_bind, ite_self, hex]
        congr 1
        exact meta_fold_id s.metaTemplate hnd s.metaTemplate (fun kv hkv => hkv)
    rintro hreq
    refine ⟨hmeta r hreq, ?_⟩
    rcases hreq with rfl | rfl <;> rfl

theorem loadSummary_never_throws_witness :
    (loadSummary (mkStore Nat "duck" [("pipelines", "p0")] "t0") "t1" .throws).statusSummary
        = true ∧
    (loadSummary (mkStore Nat "duck" [("pipelines", "p0")] "t0") "t1" .throws).meta =
      { version := "1", created_at := "t1", updated_at := "t1",
        extra := [("pipelines", "p0")] } ∧
    (loadSummary (mkStore Nat "duck" [("pipelines", "p0")] "t0") "t1" .throws).lookup = [] := by
  have h := loadSummary_never_throws (mkStore Nat "duck" [("pipelines", "p0")] "t0") "t1"
    .throws (by decide) rfl
  exact ⟨h.1, (h.2 (Or.inl rfl)).1, (h.2 (Or.inl rfl)).2⟩

theorem addFile_updateFile_same_state_witness :
    (addFile demoStore { name := "b2", path := "b.js", content := 9 } none).1 =
      (updateFile demoStore { name := "b2", path := "b.js", content := 9 } none).1 :=
  addFile_updateFile_same_state demoStore
    { name := "b2", path := "b.js", content := 9 } none (by decide) (by decide)

end DocStore
